import Mathlib

/-!
Verification of the autotmux discovery–probe–reconcile–watch pipeline.

Shallow embedding of `autotmux.py`.  Python strings are modelled as `List Char`
(`Str`); Python `dict`s as insertion-ordered association lists; wall-clock
times (`time.time()`) as rationals; remote-command invocations as explicit
inputs (return code, stdout, stderr) supplied by an environment record.
-/

namespace Autotmux

/-- Python strings are sequences of code points. -/
abbrev Str := List Char

/-- Code points of a Lean string literal, used to write `Str` constants. -/
def str (s : String) : Str := s.data

/-- Python string comparison `a < b`: lexicographic by code point. -/
def charListLt : Str → Str → Bool
  | _, [] => false
  | [], _ :: _ => true
  | a :: as, b :: bs => a < b || (a = b && charListLt as bs)

/-- Python substring test helper: `pat` is a prefix of `s`. -/
def headMatch : Str → Str → Bool
  | [], _ => true
  | _ :: _, [] => false
  | a :: as, b :: bs => a = b && headMatch as bs

/-- Python `pat in s`: `pat` occurs contiguously in `s`. -/
def containsSub (pat : Str) : Str → Bool
  | [] => headMatch pat []
  | c :: rest => headMatch pat (c :: rest) || containsSub pat rest

/-- Characters removed by Python `str.strip()` (ASCII whitespace). -/
def isSpc (c : Char) : Bool :=
  c = ' ' || c = '\t' || c = '\n' || c = '\r' || c = '\x0b' || c = '\x0c'

/-- Python `str.strip()`: drop leading and trailing whitespace. -/
def pyStrip (s : Str) : Str :=
  ((s.dropWhile isSpc).reverse.dropWhile isSpc).reverse

/-- Python `s.split(c)` for a one-character separator: split on every
occurrence of `c`, keeping empty pieces.  Always returns a nonempty list. -/
def splitOnChar (c : Char) : Str → List Str
  | [] => [[]]
  | a :: rest =>
    match splitOnChar c rest with
    | [] => [[]]
    | g :: gs => if a = c then [] :: g :: gs else (a :: g) :: gs

/-- Python `c.join(groups)` for a one-character separator. -/
def joinChar (c : Char) : List Str → Str
  | [] => []
  | [g] => g
  | g :: gs => g ++ c :: joinChar c gs

/-- Python `s.splitlines()` for the outputs handled here, modelled as
splitting on newline (a trailing empty piece is skipped by every caller). -/
def pyLines (s : Str) : List Str := splitOnChar '\n' s

/-- Python `False < True` on booleans. -/
def boolLt (x y : Bool) : Bool := !x && y

/-- A reconciled item `(node, session, windows, is_stale)` as built by the UI
loop in `draw_menu` (4-tuples; `is_stale` marks offline/noted sessions). -/
abbrev Item := Str × Str × Str × Bool

/-- A live session tuple `(node, session_name, window_count)` as produced by
`check_node_sessions` and stored in `AppState.sessions`. -/
abbrev STuple := Str × Str × Str

/-- Python `<` on 4-tuples `(Str, Str, Str, Bool)`: lexicographic. -/
def itemLt (a b : Item) : Bool :=
  charListLt a.1 b.1 ||
    (a.1 = b.1 && (charListLt a.2.1 b.2.1 ||
      (a.2.1 = b.2.1 && (charListLt a.2.2.1 b.2.2.1 ||
        (a.2.2.1 = b.2.2.1 && boolLt a.2.2.2 b.2.2.2)))))

/-- Pad a session 3-tuple with a constant so that Python's 3-tuple `<`
coincides with `itemLt` on the padded values. -/
def padT (t : STuple) : Item := (t.1, t.2.1, t.2.2, false)

/-- Python `<` on session 3-tuples: lexicographic. -/
def tupLt (a b : STuple) : Bool := itemLt (padT a) (padT b)

/-- The sorting relation used to model Python `list.sort()` on session
tuples: `a` precedes `b` when `not (b < a)`. -/
def tupLeR (a b : STuple) : Prop := tupLt b a = false

/-- The sorting relation used to model Python `list.sort()` on items. -/
def itemLeR (a b : Item) : Prop := itemLt b a = false

instance : DecidableRel tupLeR := fun a b => by unfold tupLeR; infer_instance

instance : DecidableRel itemLeR := fun a b => by unfold itemLeR; infer_instance

/-! ## MD5 (model of `hashlib.md5(...).hexdigest()`, RFC 1321)

`autotmux.py` hashes captured pane content with `hashlib.md5` from the Python
standard library; the digest algorithm is embedded here over byte lists, with
32-bit words as `Nat` reduced `% 2^32`. -/

/-- The word size `2^32` of MD5 arithmetic. -/
def w32 : Nat := 4294967296

/-- Bitwise complement within 32 bits. -/
def not32 (x : Nat) : Nat := x ^^^ 0xFFFFFFFF

/-- Left-rotation of a 32-bit word. -/
def rotl32 (x s : Nat) : Nat := ((x <<< s) ||| (x >>> (32 - s))) % w32

/-- The 64 MD5 round constants `K[i] = floor(2^32 * |sin(i+1)|)`. -/
def md5K : List Nat :=
  [0xd76aa478, 0xe8c7b756, 0x242070db, 0xc1bdceee,
   0xf57c0faf, 0x4787c62a, 0xa8304613, 0xfd469501,
   0x698098d8, 0x8b44f7af, 0xffff5bb1, 0x895cd7be,
   0x6b901122, 0xfd987193, 0xa679438e, 0x49b40821,
   0xf61e2562, 0xc040b340, 0x265e5a51, 0xe9b6c7aa,
   0xd62f105d, 0x02441453, 0xd8a1e681, 0xe7d3fbc8,
   0x21e1cde6, 0xc33707d6, 0xf4d50d87, 0x455a14ed,
   0xa9e3e905, 0xfcefa3f8, 0x676f02d9, 0x8d2a4c8a,
   0xfffa3942, 0x8771f681, 0x6d9d6122, 0xfde5380c,
   0xa4beea44, 0x4bdecfa9, 0xf6bb4b60, 0xbebfbc70,
   0x289b7ec6, 0xeaa127fa, 0xd4ef3085, 0x04881d05,
   0xd9d4d039, 0xe6db99e5, 0x1fa27cf8, 0xc4ac5665,
   0xf4292244, 0x432aff97, 0xab9423a7, 0xfc93a039,
   0x655b59c3, 0x8f0ccc92, 0xffeff47d, 0x85845dd1,
   0x6fa87e4f, 0xfe2ce6e0, 0xa3014314, 0x4e0811a1,
   0xf7537e82, 0xbd3af235, 0x2ad7d2bb, 0xeb86d391]

/-- The 64 MD5 per-round shift amounts. -/
def md5S : List Nat :=
  [7, 12, 17, 22, 7, 12, 17, 22, 7, 12, 17, 22, 7, 12, 17, 22,
   5, 9, 14, 20, 5, 9, 14, 20, 5, 9, 14, 20, 5, 9, 14, 20,
   4, 11, 16, 23, 4, 11, 16, 23, 4, 11, 16, 23, 4, 11, 16, 23,
   6, 10, 15, 21, 6, 10, 15, 21, 6, 10, 15, 21, 6, 10, 15, 21]

/-- The MD5 nonlinear function for round `i`. -/
def md5F (i b c d : Nat) : Nat :=
  if i < 16 then (b &&& c) ||| (not32 b &&& d)
  else if i < 32 then (d &&& b) ||| (not32 d &&& c)
  else if i < 48 then b ^^^ c ^^^ d
  else c ^^^ (b ||| not32 d)

/-- The MD5 message-word index for round `i`. -/
def md5G (i : Nat) : Nat :=
  if i < 16 then i
  else if i < 32 then (5 * i + 1) % 16
  else if i < 48 then (3 * i + 5) % 16
  else (7 * i) % 16

/-- One MD5 round on the state `(A, B, C, D)`. -/
def md5Round (m : List Nat) (st : Nat × Nat × Nat × Nat) (i : Nat) :
    Nat × Nat × Nat × Nat :=
  let f := (md5F i st.2.1 st.2.2.1 st.2.2.2 + st.1 + md5K.getD i 0 +
    m.getD (md5G i) 0) % w32
  (st.2.2.2, (st.2.1 + rotl32 f (md5S.getD i 0)) % w32, st.2.1, st.2.2.1)

/-- Decode a byte list into little-endian 32-bit words. -/
def leWords : List Nat → List Nat
  | b0 :: b1 :: b2 :: b3 :: rest =>
    (b0 + 256 * b1 + 65536 * b2 + 16777216 * b3) :: leWords rest
  | _ => []

/-- Process one 64-byte chunk. -/
def md5Chunk (st : Nat × Nat × Nat × Nat) (chunk : List Nat) :
    Nat × Nat × Nat × Nat :=
  let m := leWords chunk
  let r := (List.range 64).foldl (md5Round m) st
  ((st.1 + r.1) % w32, (st.2.1 + r.2.1) % w32,
   (st.2.2.1 + r.2.2.1) % w32, (st.2.2.2 + r.2.2.2) % w32)

/-- Split into 64-byte chunks (fuelled by the length for structural
recursion). -/
def chunksAux : Nat → List Nat → List (List Nat)
  | 0, _ => []
  | _, [] => []
  | fuel + 1, l => l.take 64 :: chunksAux fuel (l.drop 64)

/-- Split a list into 64-byte chunks. -/
def chunks64 (l : List Nat) : List (List Nat) := chunksAux l.length l

/-- MD5 padding: `0x80`, zeros to 56 mod 64, then the 64-bit little-endian
bit length. -/
def md5Pad (msg : List Nat) : List Nat :=
  let L := msg.length
  msg ++ 0x80 :: List.replicate ((119 - L % 64) % 64) 0 ++
    (List.range 8).map (fun k => ((8 * L) % 18446744073709551616) >>> (8 * k) % 256)

/-- The MD5 initial state. -/
def md5Init : Nat × Nat × Nat × Nat := (0x67452301, 0xefcdab89, 0x98badcfe, 0x10325476)

/-- Little-endian bytes of a 32-bit word. -/
def leBytes4 (w : Nat) : List Nat := [w % 256, (w >>> 8) % 256, (w >>> 16) % 256, (w >>> 24) % 256]

/-- The 16-byte MD5 digest of a byte list. -/
def md5Digest (msg : List Nat) : List Nat :=
  let st := (chunks64 (md5Pad msg)).foldl md5Chunk md5Init
  leBytes4 st.1 ++ leBytes4 st.2.1 ++ leBytes4 st.2.2.1 ++ leBytes4 st.2.2.2

/-- Lowercase hexadecimal digit. -/
def hexDigit (n : Nat) : Char :=
  if n < 10 then Char.ofNat (48 + n) else Char.ofNat (87 + n)

/-- Two lowercase hexadecimal digits of a byte. -/
def hexByte (n : Nat) : List Char := [hexDigit (n / 16 % 16), hexDigit (n % 16)]

/-- Model of `hashlib.md5(bytes).hexdigest()`: the 32-character lowercase hex digest. -/
def md5Hex (msg : List Nat) : Str := (md5Digest msg).flatMap hexByte

/-- Python `s.encode('utf-8')` for one code point. -/
def utf8Char (n : Nat) : List Nat :=
  if n < 128 then [n]
  else if n < 2048 then [192 + n / 64, 128 + n % 64]
  else if n < 65536 then [224 + n / 4096, 128 + n / 64 % 64, 128 + n % 64]
  else [240 + n / 262144, 128 + n / 4096 % 64, 128 + n / 64 % 64, 128 + n % 64]

/-- Python `s.encode('utf-8')`. -/
def utf8 (s : Str) : List Nat := s.flatMap (fun c => utf8Char c.toNat)

/-! ## WatchEngine: the idle-watch state machine (`_refresh_worker`, watch
mode logic, and the watch-creation branch of `draw_menu`) -/

/-- The sentinel session name `"<Start Shell>"`. -/
def startShell : Str := str "<Start Shell>"

/-- One watch entry, `app.watches[key]`.  In the source the entry is a dict
created without an `alert_sent` key; `w_data.get('alert_sent')` is falsy
until the key is first written, so the field is modelled as a `Bool` that is
`false` at creation. -/
structure WatchData where
  threshold : ℚ
  last_change : ℚ
  last_hash : Str
  alert_sent : Bool
deriving DecidableEq

/-- One step of the watch state machine for a watched key, from
`_refresh_worker` (the `if key in self.watches` block): hash the captured
content; on a hash change reset the entry; otherwise alert once the idle
time exceeds the threshold and no alert was sent yet.  `now` models
`time.time()`; the returned flag records whether `send_slack_alert` was
invoked on this step. -/
def watch_step (now : ℚ) (lines : List Str) (w : WatchData) : WatchData × Bool :=
  let content_str := lines.flatten
  let curr_hash := md5Hex (utf8 content_str)
  if w.last_hash ≠ curr_hash then
    ({ w with last_hash := curr_hash, last_change := now, alert_sent := false }, false)
  else
    let idle := now - w.last_change
    if w.threshold < idle ∧ w.alert_sent = false then
      ({ w with alert_sent := true }, true)
    else
      (w, false)

/-- The watch entry created by the `w` key handler in `draw_menu`:
`{'threshold': mins * 60, 'last_change': time.time(), 'last_hash': ''}`. -/
def new_watch (mins now : ℚ) : WatchData :=
  { threshold := mins * 60, last_change := now, last_hash := [], alert_sent := false }

/-- Fold `watch_step` over a sequence of refreshes `(now, captured lines)`,
counting the alerts dispatched. -/
def run_watch : List (ℚ × List Str) → WatchData → WatchData × Nat
  | [], w => (w, 0)
  | (now, lines) :: rest, w =>
    let s := watch_step now lines w
    let r := run_watch rest s.1
    (r.1, (if s.2 then 1 else 0) + r.2)

/-! ## SessionProber: `check_node_sessions` -/

/-- Output of a completed remote process: `(returncode, stdout, stderr)`,
as collected by `process.communicate()`. -/
structure ProcOut where
  returncode : Int
  stdout : Str
  stderr : Str

/-- The body of the `returncode == 0` parsing loop of
`check_node_sessions`, as the sessions one stdout line appends: nothing for
a blank line; for a line with a `:`, `parts = line.split(':')`, the name is
`parts[0]` and the window count `parts[1] if len(parts) > 1 else "?"`; a
line without a `:` appends `(node, line, "?")`. -/
def session_of_line (node : Str) (line : Str) : List STuple :=
  let l := pyStrip line
  if l = [] then []
  else if l.contains ':' then
    match splitOnChar ':' l with
    | [] => []
    | s_name :: rest => [(node, s_name, match rest with | [] => str "?" | wd :: _ => wd)]
  else [(node, l, str "?")]

/-- The `returncode == 0` parsing loop of `check_node_sessions`: fold over
the stdout lines, appending each line's sessions. -/
def parse_session_lines (node : Str) (stdout : Str) : List STuple :=
  (pyLines stdout).foldl (fun acc line => acc ++ session_of_line node line) []

/-- Function `check_node_sessions` (autotmux.py lines 137-177) applied to the
completed `ssh ... tmux list-sessions` process: returns
`(sessions, error)`. -/
def check_node_sessions (node : Str) (r : ProcOut) : List STuple × Option Str :=
  if r.returncode = 0 then
    (parse_session_lines node r.stdout, none)
  else if containsSub (str "no server running on") r.stderr ||
      containsSub (str "failed to connect to server") r.stderr ||
      pyStrip r.stdout = [] then
    ([], none)
  else if containsSub (str "Connection timed out") r.stderr ||
      containsSub (str "Permission denied") r.stderr ||
      containsSub (str "Could not resolve hostname") r.stderr then
    ([], some (node ++ str ": " ++ pyStrip r.stderr))
  else
    ([], none)

/-! ## NodeDiscovery: `get_nodes` -/

/-- Outcome of a `subprocess.check_output` invocation: success with stdout,
a `CalledProcessError` (non-zero exit), or any other exception (e.g. a
missing executable). -/
inductive ProcResult where
  | ok (out : Str)
  | calledProcessError
  | otherError
deriving DecidableEq

/-- Environment for `get_nodes`: `$USER`, the `squeue` outcome, and the
`scontrol show hostnames` outcome per compressed node-list token. -/
structure DiscoverEnv where
  user : Option Str
  squeue : ProcResult
  scontrol : Str → ProcResult

/-- Python `dict` assignment `d[k] = v`: replace in place if the key exists,
otherwise append (dicts preserve insertion order). -/
def dictInsert (m : List (Str × α)) (k : Str) (v : α) : List (Str × α) :=
  if m.any (fun kv => kv.1 = k) then
    m.map (fun kv => if kv.1 = k then (k, v) else kv)
  else m ++ [(k, v)]

/-- The line loop of `get_nodes`.  A token containing `[` or `,` is expanded
via `scontrol`; a `CalledProcessError` there falls back to the raw token,
while any other exception escapes the inner handler, is swallowed by the
outer `except Exception: pass`, and the mapping accumulated so far is
returned. -/
def get_nodes_lines (env : DiscoverEnv) : List Str → List (Str × Str) → List (Str × Str)
  | [], acc => acc
  | line :: rest, acc =>
    let l := pyStrip line
    if l = [] then get_nodes_lines env rest acc
    else
      match splitOnChar '|' l with
      | [node_part, time_left] =>
        if node_part.contains '[' || node_part.contains ',' then
          match env.scontrol node_part with
          | .ok expanded =>
            get_nodes_lines env rest
              ((pyLines expanded).foldl (fun m node =>
                if pyStrip node ≠ [] then dictInsert m (pyStrip node) time_left else m) acc)
          | .calledProcessError =>
            get_nodes_lines env rest (dictInsert acc node_part time_left)
          | .otherError => acc
        else
          get_nodes_lines env rest (dictInsert acc node_part time_left)
      | _ => get_nodes_lines env rest acc

/-- Function `get_nodes` (autotmux.py lines 94-135): the node→time-left mapping
together with the errors it records (none: every failure path is silently
swallowed and nothing is ever appended to `self.errors` here). -/
def get_nodes (env : DiscoverEnv) : List (Str × Str) × List Str :=
  match env.user with
  | none => ([], [])
  | some _ =>
    match env.squeue with
    | .ok out => (get_nodes_lines env (pyLines out) [], [])
    | .calledProcessError => ([], [])
    | .otherError => ([], [])

/-! ## Reconciler: placeholder synthesis, sorting, stale-note items -/

/-- The composite SessionKey `f"{node}:{session}"`. -/
def mkKey (node session : Str) : Str := node ++ ':' :: session

/-- The tail of `_refresh_worker` (lines 264-270): append one
`<Start Shell>` placeholder per discovered node that has no live session,
then `new_sessions.sort()`. -/
def refresh_sessions (raw : List STuple) (nodes : List Str) : List STuple :=
  let nodes_with_sessions := raw.map (fun t => t.1)
  let empty_nodes := nodes.filter (fun n => !(nodes_with_sessions.contains n))
  List.insertionSort tupLeR (raw ++ empty_nodes.map (fun n => (n, startShell, str "0")))

/-- The stale-key split of `draw_menu` (lines 481-485): `key.split(':')`,
at least two parts required, node is the first part, and the session name is
`':'.join(parts[1:])`. -/
def parse_stale_item (key : Str) : Option Item :=
  match splitOnChar ':' key with
  | node :: g :: gs => some (node, joinChar ':' (g :: gs), str "?", true)
  | _ => none

/-- The `active_keys` set of `draw_menu` (line 478). -/
def active_keys (sessions : List STuple) : List Str :=
  sessions.map (fun t => mkKey t.1 t.2.1)

/-- The stale-item loop of `draw_menu` (lines 479-485), in note insertion
order, before sorting. -/
def stale_items (notes : List (Str × Str)) (ak : List Str) : List Item :=
  notes.filterMap (fun kv => if ak.contains kv.1 then none else parse_stale_item kv.1)

/-- The item list built at the top of each `draw_menu` iteration (lines
472-488): active items in stored (sorted) order followed by
`stale_items.sort()`. -/
def draw_items (sessions : List STuple) (notes : List (Str × Str)) : List Item :=
  let active := sessions.map (fun t => (t.1, t.2.1, t.2.2, false))
  active ++ List.insertionSort itemLeR (stale_items notes (active_keys sessions))

/-- The reconciliation pipeline applied to one refresh input
`(live_sessions, notes, node_time_map)`. -/
def reconcile_all (live : List STuple) (notes : List (Str × Str)) (nodes : List Str) : List Item :=
  draw_items (refresh_sessions live nodes) notes

/-! ## RefreshCoordinator: the shared-state mutation trace of
`_refresh_worker` -/

/-- The published shared state named by the refresh contract: current nodes,
reconciled session list, snapshots, and the error list (all read by the
foreground UI loop while `_refresh_worker` runs). -/
structure Published where
  node_times : List (Str × Str)
  sessions : List STuple
  snapshots : List (Str × List Str)
  errors : List Str
deriving DecidableEq

/-- Environment of one refresh cycle: discovery output, per-node probe
results, per-session captured content, and the wall clock. -/
structure RefreshEnv where
  node_times : List (Str × Str)
  probe : Str → List STuple × Option Str
  capture : Str → Str → List Str
  now : ℚ

/-- Nodes discovered this cycle. -/
def worker_nodes (env : RefreshEnv) : List Str := env.node_times.map (fun kv => kv.1)

/-- The `new_sessions` list after the probe fan-out (phase 1). -/
def worker_raw_sessions (env : RefreshEnv) : List STuple :=
  (worker_nodes env).flatMap (fun n => (env.probe n).1)

/-- The `new_errors` list collected from the probe fan-out. -/
def worker_errors (env : RefreshEnv) : List Str :=
  (worker_nodes env).filterMap (fun n => (env.probe n).2)

/-- The sessions submitted to the capture fan-out (phase 2): every probed
session whose name is not the placeholder. -/
def worker_captures (env : RefreshEnv) : List STuple :=
  (worker_raw_sessions env).filter (fun t => !(t.2.1 == startShell))

/-- The published session list at the end of the cycle. -/
def new_sessions_of (env : RefreshEnv) : List STuple :=
  refresh_sessions (worker_raw_sessions env) (worker_nodes env)

/-- The capture loop's incremental snapshot writes
(`self.snapshots[key] = lines`, line 241): the list of intermediate
published states, one per capture, and the state after the loop. -/
def snap_run (env : RefreshEnv) : List STuple → Published → List Published × Published
  | [], s => ([], s)
  | t :: rest, s =>
    let s' := { s with
      snapshots := dictInsert s.snapshots (mkKey t.1 t.2.1) (env.capture t.1 t.2.1) }
    let r := snap_run env rest s'
    (s' :: r.1, r.2)

/-- The sequence of published states a concurrent reader can observe during
one `_refresh_worker` run, in program order: the initial state, the state
after `self.errors = []` (line 210), after `self.node_times = ...`
(line 211), after each snapshot write, after `self.sessions = new_sessions`
(line 272), and after `self.errors = new_errors` (line 273). -/
def refresh_trace (env : RefreshEnv) (st : Published) : List Published :=
  let s1 := { st with errors := [] }
  let s2 := { s1 with node_times := env.node_times }
  let snaps := snap_run env (worker_captures env) s2
  let s3 := { snaps.2 with sessions := new_sessions_of env }
  st :: s1 :: s2 :: snaps.1 ++ [s3, { s3 with errors := worker_errors env }]

/-- The published state at the end of a completed `_refresh_worker` cycle. -/
def refresh_final (env : RefreshEnv) (st : Published) : Published :=
  let s2 := { st with errors := ([] : List Str), node_times := env.node_times }
  let s3 := { (snap_run env (worker_captures env) s2).2 with sessions := new_sessions_of env }
  { s3 with errors := worker_errors env }

/-! ## Foreground user operations on the shared maps (`draw_menu`) -/

/-- The foreground state the user operations touch: the session list
published by refresh, the Notes map, and the Watches map. -/
structure UISt where
  sessions : List STuple
  notes : List (Str × Str)
  watches : List (Str × WatchData)

/-- The item list the user navigates: `active_items + stale_items` as built
at the top of every `draw_menu` iteration (with an empty filter query). -/
def all_items (st : UISt) : List Item := draw_items st.sessions st.notes

/-- A background refresh as it affects the foreground state: publishes the
new session list; the watch-mode block of `_refresh_worker` (lines 243-258)
rewrites the values of already-watched captured keys through `watch_step`
but never inserts or removes a watch key. -/
def ui_refresh (env : RefreshEnv) (st : UISt) : UISt :=
  { st with
    sessions := new_sessions_of env,
    watches := (worker_captures env).foldl (fun ws t =>
      ws.map (fun kv =>
        if kv.1 = mkKey t.1 t.2.1 then
          (kv.1, (watch_step env.now (env.capture t.1 t.2.1) kv.2).1)
        else kv)) st.watches }

/-- One user operation, each acting on the item currently selected
(an index into `all_items`). -/
inductive UOp where
  | refresh (env : RefreshEnv)
  | noteAdd (idx : Nat) (text : Str)
  | noteDel (idx : Nat)
  | watchToggle (idx : Nat) (mins now : ℚ)

/-- The key handlers of `draw_menu`: `n` (note add/edit, lines 677-685,
unguarded), `d` (note delete, lines 709-715), and `w` (watch toggle, lines
688-708, guarded by `not is_stale and session != "<Start Shell>"`). -/
def ui_step (st : UISt) : UOp → UISt
  | .refresh env => ui_refresh env st
  | .noteAdd idx text =>
    match (all_items st).get? idx with
    | some it => { st with notes := dictInsert st.notes (mkKey it.1 it.2.1) text }
    | none => st
  | .noteDel idx =>
    match (all_items st).get? idx with
    | some it => { st with notes := st.notes.filter (fun kv => !(kv.1 == mkKey it.1 it.2.1)) }
    | none => st
  | .watchToggle idx mins now =>
    match (all_items st).get? idx with
    | some it =>
      if it.2.2.2 = false ∧ it.2.1 ≠ startShell then
        if st.watches.any (fun kv => kv.1 = mkKey it.1 it.2.1) then
          { st with watches := st.watches.filter (fun kv => !(kv.1 == mkKey it.1 it.2.1)) }
        else
          { st with watches := st.watches ++ [(mkKey it.1 it.2.1, new_watch mins now)] }
      else st
    | none => st

/-- Run a sequence of user operations. -/
def ui_run (st : UISt) (ops : List UOp) : UISt := ops.foldl ui_step st

/-- Does a stored SessionKey denote the placeholder?  Its session component
is everything after the first `:`, as recovered by `parse_stale_item`. -/
def key_for_start_shell (k : Str) : Bool :=
  match parse_stale_item k with
  | some it => it.2.1 == startShell
  | none => false

/-- No key of the map denotes the `<Start Shell>` placeholder. -/
def no_start_shell_keys (m : List (Str × α)) : Bool :=
  m.all (fun kv => !(key_for_start_shell kv.1))

/-! ## RefreshCoordinator: `start_background_refresh` -/

/-- The process-wide `AppState` fields (autotmux.py lines 17-30). -/
structure AppState where
  notes : List (Str × Str)
  snapshots : List (Str × List Str)
  node_times : List (Str × Str)
  sessions : List STuple
  errors : List Str
  watches : List (Str × WatchData)
  config : List (Str × Str)
  filter_query : Str
  refreshing : Bool
  last_refresh_time : ℚ
  refresh_interval : ℚ
deriving DecidableEq

/-- Function `start_background_refresh` (autotmux.py lines 201-206): returns the
state as left by the call itself, plus whether a worker thread was
spawned. -/
def start_background_refresh (st : AppState) : AppState × Bool :=
  if st.refreshing then (st, false)
  else ({ st with refreshing := true }, true)

/-- Python `<` on `(node, session_name)` pairs: lexicographic. -/
def pairLt (a b : Str × Str) : Bool :=
  charListLt a.1 b.1 || (a.1 = b.1 && charListLt a.2 b.2)

/-- The `(node, session_name)` key of an item. -/
def keyOfItem (i : Item) : Str × Str := (i.1, i.2.1)

/-- Item `a` does not come after `b` in `(node, session_name)` order. -/
def keyLe (a b : Item) : Prop := pairLt (keyOfItem b) (keyOfItem a) = false

/-- Number of occurrences of an item in a list. -/
def countItem (l : List Item) (x : Item) : Nat := l.countP (fun i => i = x)

/-! ## General lemmas: splitting/joining, the tuple orders, MD5, the watch
fold -/

theorem splitOnChar_ne_nil (c : Char) (s : Str) : splitOnChar c s ≠ [] := by
  induction s with
  | nil => simp [splitOnChar]
  | cons a rest ih =>
    simp only [splitOnChar]
    rcases h : splitOnChar c rest with _ | ⟨g, gs⟩
    · simp
    · by_cases ha : a = c <;> simp [ha]

theorem joinChar_splitOnChar (c : Char) (s : Str) :
    joinChar c (splitOnChar c s) = s := by
  induction s with
  | nil => simp [splitOnChar, joinChar]
  | cons a rest ih =>
    simp only [splitOnChar]
    rcases h : splitOnChar c rest with _ | ⟨g, gs⟩
    · exact absurd h (splitOnChar_ne_nil c rest)
    · rw [h] at ih
      by_cases ha : a = c
      · subst ha
        simp only [if_pos rfl, joinChar]
        rcases gs with _ | ⟨g', gs'⟩ <;> simp_all [joinChar]
      · simp only [if_neg ha]
        rcases gs with _ | ⟨g', gs'⟩ <;> simp_all [joinChar]

theorem splitOnChar_not_mem (c : Char) (s : Str) (hs : c ∉ s) :
    splitOnChar c s = [s] := by
  induction s with
  | nil => simp [splitOnChar]
  | cons a rest ih =>
    simp only [List.mem_cons, not_or] at hs
    have hne : a ≠ c := fun h => hs.1 h.symm
    simp [splitOnChar, ih hs.2, hne]

theorem splitOnChar_append_of_not_mem (c : Char) (a b : Str) (ha : c ∉ a) :
    splitOnChar c (a ++ c :: b) = a :: splitOnChar c b := by
  induction a with
  | nil =>
    simp only [List.nil_append, splitOnChar]
    rcases h : splitOnChar c b with _ | ⟨g, gs⟩
    · exact absurd h (splitOnChar_ne_nil c b)
    · simp
  | cons x xs ih =>
    simp only [List.mem_cons, not_or] at ha
    have hne : x ≠ c := fun h => ha.1 h.symm
    have h2 := ih ha.2
    simp only [List.cons_append, splitOnChar, List.append_eq]
    rw [h2]
    simp [hne]

theorem charListLt_irrefl (s : Str) : charListLt s s = false := by
  induction s with
  | nil => rfl
  | cons a as ih => simp [charListLt, ih, lt_irrefl]

theorem charListLt_trans {a b c : Str} (h1 : charListLt a b = true)
    (h2 : charListLt b c = true) : charListLt a c = true := by
  induction a generalizing b c with
  | nil =>
    cases b with
    | nil => simp [charListLt] at h1
    | cons y ys =>
      cases c with
      | nil => simp [charListLt] at h2
      | cons z zs => simp [charListLt]
  | cons x xs ih =>
    cases b with
    | nil => simp [charListLt] at h1
    | cons y ys =>
      cases c with
      | nil => simp [charListLt] at h2
      | cons z zs =>
        simp only [charListLt, Bool.or_eq_true, Bool.and_eq_true,
          decide_eq_true_eq] at h1 h2 ⊢
        rcases h1 with h1 | ⟨rfl, h1⟩
        · rcases h2 with h2 | ⟨rfl, h2⟩
          · exact Or.inl (lt_trans h1 h2)
          · exact Or.inl h1
        · rcases h2 with h2 | ⟨rfl, h2⟩
          · exact Or.inl h2
          · exact Or.inr ⟨rfl, ih h1 h2⟩

theorem charListLt_connex {a b : Str} (h1 : charListLt a b = false)
    (h2 : charListLt b a = false) : a = b := by
  induction a generalizing b with
  | nil =>
    cases b with
    | nil => rfl
    | cons y ys => simp [charListLt] at h1
  | cons x xs ih =>
    cases b with
    | nil => simp [charListLt] at h2
    | cons y ys =>
      simp only [charListLt, Bool.or_eq_false_iff, Bool.and_eq_false_iff,
        decide_eq_false_iff_not, decide_eq_true_eq] at h1 h2
      rcases lt_trichotomy x y with hxy | hxy | hxy
      · exact absurd hxy h1.1
      · subst hxy
        rcases h1.2 with h | h
        · exact absurd rfl h
        · rcases h2.2 with h' | h'
          · exact absurd rfl h'
          · rw [ih h h']
      · exact absurd hxy h2.1

theorem charListLt_asymm {a b : Str} (h1 : charListLt a b = true)
    (h2 : charListLt b a = true) : False := by
  have := charListLt_trans h1 h2
  rw [charListLt_irrefl] at this
  exact Bool.false_ne_true this

theorem itemLt_irrefl (a : Item) : itemLt a a = false := by
  obtain ⟨n, s, w, f⟩ := a
  simp [itemLt, charListLt_irrefl, boolLt]

theorem itemLt_trans {a b c : Item} (h1 : itemLt a b = true)
    (h2 : itemLt b c = true) : itemLt a c = true := by
  obtain ⟨n1, s1, w1, f1⟩ := a
  obtain ⟨n2, s2, w2, f2⟩ := b
  obtain ⟨n3, s3, w3, f3⟩ := c
  simp only [itemLt, Bool.or_eq_true, Bool.and_eq_true, decide_eq_true_eq] at h1 h2 ⊢
  rcases h1 with h1 | ⟨rfl, h1⟩
  · rcases h2 with h2 | ⟨rfl, h2⟩
    · exact Or.inl (charListLt_trans h1 h2)
    · exact Or.inl h1
  · rcases h2 with h2 | ⟨rfl, h2⟩
    · exact Or.inl h2
    · refine Or.inr ⟨rfl, ?_⟩
      rcases h1 with h1 | ⟨rfl, h1⟩
      · rcases h2 with h2 | ⟨rfl, h2⟩
        · exact Or.inl (charListLt_trans h1 h2)
        · exact Or.inl h1
      · rcases h2 with h2 | ⟨rfl, h2⟩
        · exact Or.inl h2
        · refine Or.inr ⟨rfl, ?_⟩
          rcases h1 with h1 | ⟨rfl, h1⟩
          · rcases h2 with h2 | ⟨rfl, h2⟩
            · exact Or.inl (charListLt_trans h1 h2)
            · exact Or.inl h1
          · rcases h2 with h2 | ⟨rfl, h2⟩
            · exact Or.inl h2
            · refine Or.inr ⟨rfl, ?_⟩
              revert h1 h2
              cases f1 <;> cases f2 <;> cases f3 <;> decide

theorem itemLt_connex {a b : Item} (h1 : itemLt a b = false)
    (h2 : itemLt b a = false) : a = b := by
  obtain ⟨n1, s1, w1, f1⟩ := a
  obtain ⟨n2, s2, w2, f2⟩ := b
  simp only [itemLt, Bool.or_eq_false_iff, Bool.and_eq_false_iff,
    decide_eq_false_iff_not, decide_eq_true_eq] at h1 h2
  by_cases hn : n1 = n2
  · subst hn
    rcases h1.2 with h | h1'
    · exact absurd rfl h
    rcases h2.2 with h | h2'
    · exact absurd rfl h
    by_cases hs : s1 = s2
    · subst hs
      rcases h1'.2 with h | h1''
      · exact absurd rfl h
      rcases h2'.2 with h | h2''
      · exact absurd rfl h
      by_cases hw : w1 = w2
      · subst hw
        rcases h1''.2 with h | h1f
        · exact absurd rfl h
        rcases h2''.2 with h | h2f
        · exact absurd rfl h
        have : f1 = f2 := by
          revert h1f h2f
          cases f1 <;> cases f2 <;> decide
        rw [this]
      · exact absurd (charListLt_connex h1''.1 h2''.1) hw
    · exact absurd (charListLt_connex h1'.1 h2'.1) hs
  · exact absurd (charListLt_connex h1.1 h2.1) hn

theorem padT_inj {a b : STuple} (h : padT a = padT b) : a = b := by
  obtain ⟨n1, s1, w1⟩ := a
  obtain ⟨n2, s2, w2⟩ := b
  simp only [padT, Prod.mk.injEq] at h
  simp [h.1, h.2.1, h.2.2.1]

theorem bool_not_false {b : Bool} (h : ¬ b = false) : b = true := by
  cases b <;> simp_all

theorem bool_not_true {b : Bool} (h : ¬ b = true) : b = false := by
  cases b <;> simp_all

instance : IsTotal Item itemLeR := ⟨by
  intro a b
  unfold itemLeR
  by_cases h1 : itemLt b a = false
  · exact Or.inl h1
  · by_cases h2 : itemLt a b = false
    · exact Or.inr h2
    · exact absurd (itemLt_trans (bool_not_false h1) (bool_not_false h2))
        (by rw [itemLt_irrefl]; exact Bool.false_ne_true)⟩

instance : IsTrans Item itemLeR := ⟨by
  intro a b c h1 h2
  unfold itemLeR at h1 h2 ⊢
  by_cases hca : itemLt c a = false
  · exact hca
  · have hca' := bool_not_false hca
    by_cases hab : itemLt a b = true
    · have := itemLt_trans hca' hab
      rw [h2] at this
      exact absurd this Bool.false_ne_true
    · have hab' := bool_not_true hab
      have heq : a = b := itemLt_connex hab' h1
      subst heq
      rw [h2] at hca'
      exact absurd hca' Bool.false_ne_true⟩

instance : IsTotal STuple tupLeR := ⟨by
  intro a b
  unfold tupLeR tupLt
  exact IsTotal.total (r := itemLeR) (padT a) (padT b)⟩

instance : IsTrans STuple tupLeR := ⟨by
  intro a b c h1 h2
  unfold tupLeR tupLt at h1 h2 ⊢
  exact IsTrans.trans (r := itemLeR) (padT a) (padT b) (padT c) h1 h2⟩

theorem md5Digest_length (msg : List Nat) : (md5Digest msg).length = 16 := by
  simp [md5Digest, leBytes4]

theorem md5Hex_length (msg : List Nat) : (md5Hex msg).length = 32 := by
  have h : ∀ l : List Nat, (l.flatMap hexByte).length = 2 * l.length := by
    intro l
    induction l with
    | nil => rfl
    | cons x xs ih =>
      simp only [List.flatMap_cons, List.length_append, ih, hexByte,
        List.length_cons, List.length_nil, List.length_cons]
      ring
  rw [md5Hex, h, md5Digest_length]

theorem md5Hex_ne_nil (msg : List Nat) : md5Hex msg ≠ [] := by
  intro h
  have hl := md5Hex_length msg
  rw [h] at hl
  simp at hl

theorem run_watch_alert_bound (steps : List (ℚ × List Str)) (w : WatchData)
    (h : ∀ s ∈ steps, md5Hex (utf8 s.2.flatten) = w.last_hash) :
    (run_watch steps w).2 ≤ (if w.alert_sent then 0 else 1) := by
  induction steps generalizing w with
  | nil => simp [run_watch]
  | cons p rest ih =>
    obtain ⟨now, lines⟩ := p
    have hh : md5Hex (utf8 lines.flatten) = w.last_hash :=
      h (now, lines) (List.mem_cons_self _ _)
    have hrest : ∀ s ∈ rest, md5Hex (utf8 s.2.flatten) = w.last_hash :=
      fun s hs => h s (List.mem_cons_of_mem _ hs)
    have hne : ¬ (w.last_hash ≠ md5Hex (utf8 lines.flatten)) := by simp [hh]
    by_cases hc : w.threshold < now - w.last_change ∧ w.alert_sent = false
    · have hb := ih { w with alert_sent := true } (by simpa using hrest)
      simp only [run_watch, watch_step, if_neg hne, if_pos hc]
      rw [hc.2]
      simp at hb ⊢
      omega
    · have hb := ih w hrest
      simp only [run_watch, watch_step, if_neg hne, if_neg hc]
      simpa using hb

/-! ## Claim C7: discovery failure behaviour -/

/-- C7 (corrected), counterexample: when `squeue` raises (here a
`CalledProcessError`), `get_nodes` returns the empty mapping but records
**no** error — the error list is empty, where the claim requires an error
entry.  (`except Exception: pass` at line 132-133 swallows everything.) -/
theorem c7_counterexample :
    get_nodes ⟨some (str "user"), ProcResult.calledProcessError,
      fun _ => ProcResult.otherError⟩ = ([], []) := rfl

/-- C7 (amended): whenever the scheduler command errors, `discover()`
returns an empty node-to-time mapping, never raises to the caller, and
records **no** error (the failure is silently swallowed). -/
theorem c7_fail_soft (env : DiscoverEnv) (u : Str) (hu : env.user = some u)
    (hsq : ∀ out, env.squeue ≠ ProcResult.ok out) :
    get_nodes env = ([], []) := by
  unfold get_nodes
  rw [hu]
  cases h : env.squeue with
  | ok out => exact absurd h (hsq out)
  | calledProcessError => rfl
  | otherError => rfl

/-- Witness for C7's amended theorem at a concrete environment. -/
theorem c7_fail_soft_witness :
    (⟨some (str "u"), ProcResult.calledProcessError,
        fun _ => ProcResult.calledProcessError⟩ : DiscoverEnv).user = some (str "u") ∧
    get_nodes ⟨some (str "u"), ProcResult.calledProcessError,
      fun _ => ProcResult.calledProcessError⟩ = ([], []) :=
  ⟨rfl, c7_fail_soft ⟨some (str "u"), ProcResult.calledProcessError,
    fun _ => ProcResult.calledProcessError⟩ (str "u") rfl
    (fun _ h => ProcResult.noConfusion h)⟩

/-! ## Claim C8: single-flight refresh trigger -/

/-- C8: while the `refreshing` flag is set, `start_background_refresh` is a
no-op — it returns with the state unchanged and spawns no worker thread. -/
theorem c8_single_flight (st : AppState) (h : st.refreshing = true) :
    start_background_refresh st = (st, false) := by
  unfold start_background_refresh
  rw [if_pos h]

/-- Witness for C8 at a concrete in-flight state. -/
theorem c8_single_flight_witness :
    (⟨[], [], [], [], [], [], [], [], true, 0, 0⟩ : AppState).refreshing = true ∧
    start_background_refresh (⟨[], [], [], [], [], [], [], [], true, 0, 0⟩ : AppState) =
      ((⟨[], [], [], [], [], [], [], [], true, 0, 0⟩ : AppState), false) :=
  ⟨rfl, c8_single_flight ⟨[], [], [], [], [], [], [], [], true, 0, 0⟩ rfl⟩

/-! ## Claim C9: malformed probe lines -/

/-- C9 (corrected), counterexample: in session listing a non-blank line
**not** of the form `name:window_count` (here `"foo"`, with no `:`) still
contributes a session entry `(node, line, "?")`, where the claim requires it
to contribute nothing. -/
theorem c9_counterexample :
    parse_session_lines (str "n1") (str "foo") = [(str "n1", str "foo", str "?")] := by
  decide

/-- C9 (amended): in node discovery a line that does not split into exactly
two `|`-fields contributes nothing; in session listing the output is
line-by-line, only blank lines are skipped, and every non-blank line
contributes exactly one entry (with or without a `:`). -/
theorem c9_malformed_lines :
    (∀ (env : DiscoverEnv) (line : Str) (rest : List Str) (acc : List (Str × Str)),
      (splitOnChar '|' (pyStrip line)).length ≠ 2 →
      get_nodes_lines env (line :: rest) acc = get_nodes_lines env rest acc) ∧
    (∀ (node stdout : Str),
      parse_session_lines node stdout = (pyLines stdout).flatMap (session_of_line node)) ∧
    (∀ (node line : Str), pyStrip line ≠ [] → (session_of_line node line).length = 1) := by
  refine ⟨?_, ?_, ?_⟩
  · intro env line rest acc hlen
    by_cases hb : pyStrip line = []
    · simp [get_nodes_lines, hb]
    · rcases hs : splitOnChar '|' (pyStrip line) with _ | ⟨a, t⟩
      · exact absurd hs (splitOnChar_ne_nil _ _)
      · rcases t with _ | ⟨b, t2⟩
        · simp [get_nodes_lines, hb, hs]
        · rcases t2 with _ | ⟨c, t3⟩
          · rw [hs] at hlen
            simp at hlen
          · simp [get_nodes_lines, hb, hs]
  · intro node stdout
    have hfold : ∀ (lines : List Str) (acc : List STuple),
        lines.foldl (fun acc line => acc ++ session_of_line node line) acc =
          acc ++ lines.flatMap (session_of_line node) := by
      intro lines
      induction lines with
      | nil =>
        intro acc
        simp
      | cons x xs ih =>
        intro acc
        rw [List.foldl_cons, List.flatMap_cons, ih, List.append_assoc]
    rw [parse_session_lines, hfold, List.nil_append]
  · intro node line hne
    unfold session_of_line
    rw [if_neg hne]
    by_cases hc : (pyStrip line).contains ':'
    · rw [if_pos hc]
      rcases hs : splitOnChar ':' (pyStrip line) with _ | ⟨g, gs⟩
      · exact absurd hs (splitOnChar_ne_nil _ _)
      · simp
    · rw [if_neg hc]
      rfl

/-! ## Claim C10: a fresh watch never alerts on its first refresh -/

/-- C10: a watch entry is created with `last_hash = ''`; the MD5 hex digest
of any captured content has 32 characters, hence is never the empty string,
so the first refresh that processes the watch always takes the reset branch
(store the hash, set `last_change = now`, clear `alert_sent`) and dispatches
no alert, regardless of content and elapsed time. -/
theorem c10_first_refresh_no_alert (mins t0 now : ℚ) (lines : List Str) :
    watch_step now lines (new_watch mins t0) =
      ({ threshold := mins * 60, last_change := now,
         last_hash := md5Hex (utf8 lines.flatten), alert_sent := false }, false) ∧
    md5Hex (utf8 lines.flatten) ≠ [] := by
  have h : md5Hex (utf8 lines.flatten) ≠ [] := md5Hex_ne_nil _
  refine ⟨?_, h⟩
  simp only [watch_step, new_watch]
  rw [if_pos (fun hEq => h hEq.symm)]

/-! ## Claim C3: probe error classification -/

/-- C3 (corrected), counterexample: a non-zero exit whose stderr contains
`"Connection timed out"` but whose stdout is blank yields **no** per-node
error (the `not stdout.strip()` disjunct at line 168 classifies it as
"no sessions"), where the claim requires the error to be surfaced. -/
theorem c3_counterexample :
    check_node_sessions (str "node1")
        ⟨255, str "", str "ssh: connect to host node1 port 22: Connection timed out"⟩ =
      ([], none) ∧
    containsSub (str "Connection timed out")
        (str "ssh: connect to host node1 port 22: Connection timed out") = true := by
  decide

/-- C3 (amended): for every non-zero remote exit the session list is empty,
and the per-node error string is surfaced exactly when stderr matches no
benign "no server" pattern, **stdout is non-blank**, and stderr indicates a
genuine connectivity failure; in every other non-zero case there is no
error. -/
theorem c3_error_classification (node : Str) (r : ProcOut) (h : ¬ r.returncode = 0) :
    (check_node_sessions node r).1 = [] ∧
    ((check_node_sessions node r).2 = some (node ++ str ": " ++ pyStrip r.stderr) ↔
      (containsSub (str "no server running on") r.stderr = false ∧
       containsSub (str "failed to connect to server") r.stderr = false ∧
       pyStrip r.stdout ≠ [] ∧
       (containsSub (str "Connection timed out") r.stderr = true ∨
        containsSub (str "Permission denied") r.stderr = true ∨
        containsSub (str "Could not resolve hostname") r.stderr = true))) := by
  unfold check_node_sessions
  rw [if_neg h]
  split_ifs with hA hB
  · refine ⟨rfl, ?_⟩
    simp only [Bool.or_eq_true, decide_eq_true_eq] at hA
    constructor
    · intro hx
      exact hx.elim
    · rintro ⟨h1, h2, h3, _⟩
      rcases hA with (hA | hA) | hA
      · rw [hA] at h1
        simp at h1
      · rw [hA] at h2
        simp at h2
      · exact absurd hA h3
  · refine ⟨rfl, ?_⟩
    simp only [Bool.or_eq_true, decide_eq_true_eq, not_or] at hA hB
    obtain ⟨⟨ha1, ha2⟩, ha3⟩ := hA
    constructor
    · intro _
      exact ⟨bool_not_true ha1, bool_not_true ha2, ha3, or_assoc.mp hB⟩
    · intro _
      rfl
  · refine ⟨rfl, ?_⟩
    simp only [Bool.or_eq_true, decide_eq_true_eq, not_or] at hA hB
    obtain ⟨⟨hb1, hb2⟩, hb3⟩ := hB
    constructor
    · intro hx
      exact hx.elim
    · rintro ⟨_, _, _, hc⟩
      rcases hc with hc | hc | hc
      · exact absurd hc hb1
      · exact absurd hc hb2
      · exact absurd hc hb3

/-- Witness for C3's amended theorem at a concrete probe result with
non-blank stdout. -/
theorem c3_error_classification_witness :
    ¬ ((255 : Int) = 0) ∧
    (check_node_sessions (str "n1") ⟨255, str "x", str "Connection timed out"⟩).1 = [] :=
  ⟨by decide, (c3_error_classification (str "n1")
    ⟨255, str "x", str "Connection timed out"⟩ (by decide)).1⟩

/-! ## Claim C1: the watch/alert state machine is edge-triggered -/

/-- C1: per watched key and refresh — (1) a hash change resets the entry
(store the new hash, stamp `last_change = now`, clear `alert_sent`) with no
alert; (2) an unchanged hash with idle time above the threshold and the
flag clear dispatches exactly one alert and sets the flag; (3) while the
hash never changes, at most one alert is ever dispatched over any sequence
of refreshes, and none at all once the flag is set — no repeat alert until
a hash change occurs first. -/
theorem c1_watch_edge_triggered :
    (∀ (now : ℚ) (lines : List Str) (w : WatchData),
      md5Hex (utf8 lines.flatten) ≠ w.last_hash →
      watch_step now lines w =
        ({ w with last_hash := md5Hex (utf8 lines.flatten),
                  last_change := now,
                  alert_sent := false }, false)) ∧
    (∀ (now : ℚ) (lines : List Str) (w : WatchData),
      md5Hex (utf8 lines.flatten) = w.last_hash →
      w.threshold < now - w.last_change →
      w.alert_sent = false →
      watch_step now lines w = ({ w with alert_sent := true }, true)) ∧
    (∀ (steps : List (ℚ × List Str)) (w : WatchData),
      (∀ s ∈ steps, md5Hex (utf8 s.2.flatten) = w.last_hash) →
      (run_watch steps w).2 ≤ 1 ∧
      (w.alert_sent = true → (run_watch steps w).2 = 0)) := by
  refine ⟨?_, ?_, ?_⟩
  · intro now lines w h
    simp only [watch_step]
    rw [if_pos (fun hEq => h hEq.symm)]
  · intro now lines w h h2 h3
    simp only [watch_step]
    rw [if_neg (by simp [h.symm]), if_pos ⟨h2, h3⟩]
  · intro steps w h
    have hb := run_watch_alert_bound steps w h
    constructor
    · rcases hw : w.alert_sent with _ | _ <;> rw [hw] at hb <;> simp at hb <;> omega
    · intro hw
      rw [hw] at hb
      simpa using hb

/-! ## Claim C5: reconciled output ordering and determinism -/

theorem pairLt_imp_itemLt {a b : Item} (h : pairLt (keyOfItem a) (keyOfItem b) = true) :
    itemLt a b = true := by
  obtain ⟨n1, s1, w1, f1⟩ := a
  obtain ⟨n2, s2, w2, f2⟩ := b
  simp only [pairLt, keyOfItem, Bool.or_eq_true, Bool.and_eq_true, decide_eq_true_eq] at h
  simp only [itemLt, Bool.or_eq_true, Bool.and_eq_true, decide_eq_true_eq]
  rcases h with h | ⟨rfl, h⟩
  · exact Or.inl h
  · exact Or.inr ⟨rfl, Or.inl h⟩

theorem itemLeR_keyLe {a b : Item} (h : itemLeR a b) : keyLe a b := by
  unfold keyLe
  by_cases hp : pairLt (keyOfItem b) (keyOfItem a) = true
  · have h2 := pairLt_imp_itemLt hp
    unfold itemLeR at h
    rw [h] at h2
    exact absurd h2 Bool.false_ne_true
  · exact bool_not_true hp

/-- C5: on any input `(live_sessions, notes, node_time_map)` the reconciled
output is the live items (incl. per-empty-node placeholders) sorted by
`(node, session_name)`, followed by the stale items sorted the same way;
and the reconciliation is a pure function, so running it twice on the same
input yields identical, identically-ordered output. -/
theorem c5_reconcile_sorted (live : List STuple) (notes : List (Str × Str)) (nodes : List Str) :
    reconcile_all live notes nodes =
      (refresh_sessions live nodes).map (fun t => (t.1, t.2.1, t.2.2, false)) ++
        List.insertionSort itemLeR
          (stale_items notes (active_keys (refresh_sessions live nodes))) ∧
    List.Pairwise keyLe
      ((refresh_sessions live nodes).map (fun t => (t.1, t.2.1, t.2.2, false))) ∧
    List.Pairwise keyLe
      (List.insertionSort itemLeR
        (stale_items notes (active_keys (refresh_sessions live nodes)))) ∧
    reconcile_all live notes nodes = reconcile_all live notes nodes := by
  refine ⟨rfl, ?_, ?_, rfl⟩
  · have hs : List.Pairwise tupLeR (refresh_sessions live nodes) := by
      unfold refresh_sessions
      exact List.sorted_insertionSort tupLeR _
    exact List.Pairwise.map _ (fun a b hab => itemLeR_keyLe hab) hs
  · have hs : List.Pairwise itemLeR (List.insertionSort itemLeR
        (stale_items notes (active_keys (refresh_sessions live nodes)))) :=
      List.sorted_insertionSort itemLeR _
    exact hs.imp (fun hab => itemLeR_keyLe hab)

/-! ## Claim C6: stale-note key splitting -/

theorem parse_stale_item_some {key node sess w : Str} {b : Bool}
    (h : parse_stale_item key = some (node, sess, w, b)) :
    key = mkKey node sess ∧ w = str "?" ∧ b = true := by
  have hj := joinChar_splitOnChar ':' key
  unfold parse_stale_item at h
  rcases hs : splitOnChar ':' key with _ | ⟨n, gs⟩
  · rw [hs] at h
    simp at h
  · rcases gs with _ | ⟨g, gs'⟩
    · rw [hs] at h
      simp at h
    · rw [hs] at h hj
      simp only [Option.some.injEq, Prod.mk.injEq] at h
      obtain ⟨h1, h2, h3, h4⟩ := h
      subst h1
      subst h2
      refine ⟨?_, h3.symm, h4.symm⟩
      rw [← hj]
      rfl

theorem parse_stale_item_mkKey (n s : Str) (hn : ':' ∉ n) :
    parse_stale_item (mkKey n s) = some (n, s, str "?", true) := by
  unfold parse_stale_item mkKey
  rw [splitOnChar_append_of_not_mem ':' n s hn]
  rcases hs : splitOnChar ':' s with _ | ⟨g, gs⟩
  · exact absurd hs (splitOnChar_ne_nil ':' s)
  · have hj := joinChar_splitOnChar ':' s
    rw [hs] at hj
    simp [hj]

theorem countP_filterMap_match {α β : Type} (f : α → Option β) (p : β → Bool)
    (l : List α) :
    (l.filterMap f).countP p =
      l.countP (fun a => match f a with | some b => p b | none => false) := by
  induction l with
  | nil => rfl
  | cons a rest ih =>
    cases hf : f a with
    | none => simp [List.filterMap_cons, hf, List.countP_cons, ih]
    | some b => simp [List.filterMap_cons, hf, List.countP_cons, ih]

theorem countP_key_unique {β : Type} (notes : List (Str × β)) (key : Str) (v : β)
    (p : Str × β → Bool)
    (hmem : (key, v) ∈ notes) (hnodup : (notes.map (fun kv => kv.1)).Nodup)
    (hp : ∀ kv, p kv = true ↔ kv.1 = key) :
    notes.countP p = 1 := by
  induction notes with
  | nil => cases hmem
  | cons a rest ih =>
    rw [List.map_cons, List.nodup_cons] at hnodup
    rw [List.countP_cons]
    rcases List.mem_cons.mp hmem with heq | hrest
    · have hpa : p a = true := (hp a).mpr (by rw [← heq])
      have hzero : rest.countP p = 0 := by
        rw [List.countP_eq_zero]
        intro kv hkv hpkv
        have hk : kv.1 = key := (hp kv).mp hpkv
        have hmemk : key ∈ rest.map (fun kv => kv.1) := by
          rw [← hk]
          exact List.mem_map_of_mem (fun kv => kv.1) hkv
        refine absurd ?_ hnodup.1
        rw [← heq]
        exact hmemk
      rw [hzero, hpa]
      simp
    · have hne : a.1 ≠ key := by
        intro hEq
        apply hnodup.1
        rw [hEq]
        exact List.mem_map_of_mem (fun kv => kv.1) hrest
      have hpa : p a = false := by
        rcases hap : p a with _ | _
        · rfl
        · exact absurd ((hp a).mp hap) hne
      rw [hpa, ih hrest hnodup.2]
      simp

/-- C6: every note key that matches no live SessionKey and splits on `:`
into at least two parts yields exactly one stale item in the reconciled
output, whose node is the part before the first `:` and whose session name
is the remaining parts rejoined with `:`; in particular, for a node without
`:`, splitting `"<node>:<session>"` recovers exactly `(node, session)`. -/
theorem c6_stale_note_item (live : List STuple) (notes : List (Str × Str)) (nodes : List Str)
    (key v node sess : Str)
    (hsplit : parse_stale_item key = some (node, sess, str "?", true))
    (hmem : (key, v) ∈ notes)
    (hnodup : (notes.map (fun kv => kv.1)).Nodup)
    (hnotlive : (active_keys (refresh_sessions live nodes)).contains key = false) :
    countItem (reconcile_all live notes nodes) (node, sess, str "?", true) = 1 ∧
    (∀ (n s : Str), ':' ∉ n → parse_stale_item (mkKey n s) = some (n, s, str "?", true)) := by
  refine ⟨?_, fun n s hn => parse_stale_item_mkKey n s hn⟩
  have hkey : key = mkKey node sess := (parse_stale_item_some hsplit).1
  unfold countItem
  have hdecomp : reconcile_all live notes nodes =
      (refresh_sessions live nodes).map (fun t => (t.1, t.2.1, t.2.2, false)) ++
        List.insertionSort itemLeR
          (stale_items notes (active_keys (refresh_sessions live nodes))) := rfl
  rw [hdecomp, List.countP_append]
  have hzero : ((refresh_sessions live nodes).map
      (fun t => (t.1, t.2.1, t.2.2, false))).countP
        (fun i => decide (i = (node, sess, str "?", true))) = 0 := by
    rw [List.countP_eq_zero]
    intro a ha hpa
    rcases List.mem_map.mp ha with ⟨t, _, rfl⟩
    simp only [decide_eq_true_eq, Prod.mk.injEq] at hpa
    exact Bool.false_ne_true hpa.2.2.2
  rw [hzero, Nat.zero_add]
  rw [(List.perm_insertionSort itemLeR _).countP_eq]
  unfold stale_items
  rw [countP_filterMap_match]
  refine countP_key_unique notes key v _ hmem hnodup ?_
  intro kv
  constructor
  · intro hkv
    rcases hc : (active_keys (refresh_sessions live nodes)).contains kv.1 with _ | _
    · rw [hc] at hkv
      simp only [Bool.false_eq_true, if_false] at hkv
      rcases hpkv : parse_stale_item kv.1 with _ | ⟨it⟩
      · rw [hpkv] at hkv
        simp at hkv
      · rw [hpkv] at hkv
        simp only [decide_eq_true_eq] at hkv
        subst hkv
        have := parse_stale_item_some hpkv
        rw [this.1, hkey]
    · rw [hc] at hkv
      simp at hkv
  · intro hkv
    rw [hkv, hnotlive]
    simp only [Bool.false_eq_true, if_false]
    rw [hsplit]
    simp

set_option maxRecDepth 4000 in
/-- Witness for C6 at the spec's `gpu02:build` scenario: one note whose key
matches no live session yields exactly one stale item `(gpu02, build)`. -/
theorem c6_stale_note_item_witness :
    parse_stale_item (str "gpu02:build") = some (str "gpu02", str "build", str "?", true) ∧
    countItem (reconcile_all [] [(str "gpu02:build", str "note")] [])
      (str "gpu02", str "build", str "?", true) = 1 :=
  ⟨by decide,
   (c6_stale_note_item [] [(str "gpu02:build", str "note")] [] (str "gpu02:build")
     (str "note") (str "gpu02") (str "build") (by decide) (by decide) (by decide)
     (by decide)).1⟩

/-! ## Claim C2: what `_refresh_worker` publishes, and when -/

theorem snap_run_fields (env : RefreshEnv) (caps : List STuple) (s : Published) :
    (∀ p ∈ (snap_run env caps s).1,
      p.sessions = s.sessions ∧ p.node_times = s.node_times ∧ p.errors = s.errors) ∧
    (snap_run env caps s).2.sessions = s.sessions ∧
    (snap_run env caps s).2.node_times = s.node_times ∧
    (snap_run env caps s).2.errors = s.errors := by
  induction caps generalizing s with
  | nil => simp [snap_run]
  | cons t rest ih =>
    simp only [snap_run]
    obtain ⟨ih1, ih2, ih3, ih4⟩ := ih { s with
      snapshots := dictInsert s.snapshots (mkKey t.1 t.2.1) (env.capture t.1 t.2.1) }
    refine ⟨?_, ih2, ih3, ih4⟩
    intro p hp
    rcases List.mem_cons.mp hp with rfl | hp'
    · exact ⟨rfl, rfl, rfl⟩
    · exact ih1 p hp'

theorem getLast?_append_pair {α : Type u} (l : List α) (a b : α) :
    (l ++ [a, b]).getLast? = some b := by
  rw [show l ++ [a, b] = (l ++ [a]) ++ [b] by simp]
  exact List.getLast?_concat _

/-- C2 (amended): during one `_refresh_worker` run, the published session
list is whole-cycle atomic — every observable state carries either the
previous cycle's session list or the completed new one, and the final state
carries exactly the new sessions and the new error list.  The other
published fields are **not** swapped atomically: the error list is cleared
at the start, `node_times` is published mid-cycle, and snapshots are
written incrementally (see the counterexample). -/
theorem c2_session_swap (env : RefreshEnv) (st : Published) :
    (∀ p ∈ refresh_trace env st,
      p.sessions = st.sessions ∨ p.sessions = new_sessions_of env) ∧
    (refresh_trace env st).getLast? = some (refresh_final env st) ∧
    (refresh_final env st).sessions = new_sessions_of env ∧
    (refresh_final env st).errors = worker_errors env := by
  refine ⟨?_, ?_, rfl, rfl⟩
  · intro p hp
    simp only [refresh_trace] at hp
    rcases List.mem_cons.mp hp with rfl | hp
    · exact Or.inl rfl
    rcases List.mem_cons.mp hp with rfl | hp
    · exact Or.inl rfl
    rcases List.mem_cons.mp hp with rfl | hp
    · exact Or.inl rfl
    rcases List.mem_append.mp hp with hp | hp
    · exact Or.inl ((snap_run_fields env (worker_captures env) _).1 p hp).1
    rcases List.mem_cons.mp hp with rfl | hp
    · exact Or.inr rfl
    rcases List.mem_singleton.mp hp with rfl
    exact Or.inr rfl
  · show (_ :: _ :: _ :: (_ ++ [_, _])).getLast? = _
    rw [show ∀ (x y z : Published) (l : List Published) (a b : Published),
        x :: y :: z :: (l ++ [a, b]) = (x :: y :: z :: l) ++ [a, b] by intro x y z l a b; simp]
    rw [getLast?_append_pair]
    rfl

set_option maxRecDepth 8000 in
/-- C2 (corrected), counterexample: with one discovered node and a previous
state carrying an old session list and a recorded error, the state observed
right after `self.errors = []` (line 210) has the error list already
cleared while the session list is still the previous cycle's — it is
neither the pre-cycle state nor the completed post-cycle state, so a
consumer can observe a partially updated mix, which the claim rules out. -/
theorem c2_counterexample :
    (⟨[], [(str "old", str "s", str "1")], [], []⟩ : Published) ∈
      refresh_trace
        ⟨[(str "n1", str "1:00")], fun _ => ([], none), fun _ _ => [], 0⟩
        ⟨[], [(str "old", str "s", str "1")], [], [str "olderr"]⟩ ∧
    (⟨[], [(str "old", str "s", str "1")], [], []⟩ : Published) ≠
      ⟨[], [(str "old", str "s", str "1")], [], [str "olderr"]⟩ ∧
    (⟨[], [(str "old", str "s", str "1")], [], []⟩ : Published) ≠
      refresh_final
        ⟨[(str "n1", str "1:00")], fun _ => ([], none), fun _ _ => [], 0⟩
        ⟨[], [(str "old", str "s", str "1")], [], [str "olderr"]⟩ := by
  decide

/-! ## Claim C4: no `<Start Shell>` SessionKey in Notes or Watches -/

theorem mkKey_session_component (node session : Str) :
    ∃ g gs, splitOnChar ':' (mkKey node session) = g :: gs ∧ gs ≠ [] ∧
      (joinChar ':' gs = session ∨ ':' ∈ joinChar ':' gs) := by
  induction node with
  | nil =>
    refine ⟨[], splitOnChar ':' session, ?_, splitOnChar_ne_nil ':' session,
      Or.inl (joinChar_splitOnChar ':' session)⟩
    show splitOnChar ':' (':' :: session) = [] :: splitOnChar ':' session
    simp only [splitOnChar]
    rcases h : splitOnChar ':' session with _ | ⟨g, gs⟩
    · exact absurd h (splitOnChar_ne_nil ':' session)
    · simp
  | cons c node' ih =>
    by_cases hc : c = ':'
    · subst hc
      refine ⟨[], splitOnChar ':' (mkKey node' session), ?_,
        splitOnChar_ne_nil _ _, ?_⟩
      · show splitOnChar ':' (':' :: mkKey node' session) = _
        simp only [splitOnChar]
        rcases h : splitOnChar ':' (mkKey node' session) with _ | ⟨g, gs⟩
        · exact absurd h (splitOnChar_ne_nil _ _)
        · simp
      · right
        rw [joinChar_splitOnChar]
        exact List.mem_append.mpr (Or.inr (List.mem_cons_self _ _))
    · obtain ⟨g, gs, hsplit, hne, hj⟩ := ih
      refine ⟨c :: g, gs, ?_, hne, hj⟩
      show splitOnChar ':' (c :: mkKey node' session) = _
      simp only [splitOnChar]
      rw [hsplit]
      simp [hc]

theorem key_for_start_shell_mkKey (node session : Str) (h : session ≠ startShell) :
    key_for_start_shell (mkKey node session) = false := by
  obtain ⟨g, gs, hs, hne, hj⟩ := mkKey_session_component node session
  rcases gs with _ | ⟨g2, gs'⟩
  · exact absurd rfl hne
  · have hne2 : joinChar ':' (g2 :: gs') ≠ startShell := by
      rcases hj with hj | hj
      · rw [hj]
        exact h
      · intro hEq
        rw [hEq] at hj
        have hnc : ':' ∉ startShell := by decide
        exact hnc hj
    unfold key_for_start_shell parse_stale_item
    rw [hs]
    simp [hne2]

theorem map_preserve_fst {β : Type} (f : Str × β → Str × β)
    (hf : ∀ kv, (f kv).1 = kv.1) (m : List (Str × β)) :
    no_start_shell_keys (m.map f) = no_start_shell_keys m := by
  induction m with
  | nil => rfl
  | cons a rest ih =>
    simp only [no_start_shell_keys, List.map_cons, List.all_cons] at ih ⊢
    rw [hf, ih]

theorem foldl_watch_update_keys (env : RefreshEnv) (caps : List STuple)
    (ws : List (Str × WatchData)) :
    no_start_shell_keys (caps.foldl (fun ws t =>
      ws.map (fun kv =>
        if kv.1 = mkKey t.1 t.2.1 then
          (kv.1, (watch_step env.now (env.capture t.1 t.2.1) kv.2).1)
        else kv)) ws) = no_start_shell_keys ws := by
  induction caps generalizing ws with
  | nil => rfl
  | cons t rest ih =>
    rw [List.foldl_cons, ih]
    exact map_preserve_fst _
      (fun kv => by by_cases h : kv.1 = mkKey t.1 t.2.1 <;> simp [h]) ws

theorem all_of_filter {β : Type} (m : List (Str × β)) (q c : Str × β → Bool)
    (h : m.all q = true) : (m.filter c).all q = true := by
  rw [List.all_eq_true] at h ⊢
  intro x hx
  exact h x (List.mem_of_mem_filter hx)

theorem ui_step_watch_keys (st : UISt) (op : UOp)
    (h : no_start_shell_keys st.watches = true) :
    no_start_shell_keys (ui_step st op).watches = true := by
  cases op with
  | refresh env =>
    show no_start_shell_keys (ui_refresh env st).watches = true
    unfold ui_refresh
    rw [foldl_watch_update_keys]
    exact h
  | noteAdd idx text =>
    show no_start_shell_keys (ui_step st (UOp.noteAdd idx text)).watches = true
    unfold ui_step
    rcases hi : (all_items st).get? idx with _ | ⟨it⟩ <;> simp only [hi] <;> exact h
  | noteDel idx =>
    show no_start_shell_keys (ui_step st (UOp.noteDel idx)).watches = true
    unfold ui_step
    rcases hi : (all_items st).get? idx with _ | ⟨it⟩ <;> simp only [hi] <;> exact h
  | watchToggle idx mins now =>
    show no_start_shell_keys (ui_step st (UOp.watchToggle idx mins now)).watches = true
    unfold ui_step
    rcases hi : (all_items st).get? idx with _ | ⟨it⟩
    · simp only [hi]
      exact h
    · simp only [hi]
      by_cases hg : it.2.2.2 = false ∧ it.2.1 ≠ startShell
      · rw [if_pos hg]
        by_cases hw : st.watches.any (fun kv => kv.1 = mkKey it.1 it.2.1)
        · rw [if_pos hw]
          exact all_of_filter st.watches _ _ h
        · rw [if_neg hw]
          show (st.watches ++ [(mkKey it.1 it.2.1, new_watch mins now)]).all _ = true
          rw [List.all_append]
          rw [no_start_shell_keys] at h
          rw [h]
          simp [key_for_start_shell_mkKey it.1 it.2.1 hg.2]
      · rw [if_neg hg]
        exact h

/-- C4 (amended): no `<Start Shell>` SessionKey ever enters the Watches map
(the `w` handler guards on the placeholder), starting from any state whose
watches respect the invariant — but Notes can acquire such a key via the
unguarded note handler (see the counterexample). -/
theorem c4_watches_invariant (init : UISt) (ops : List UOp)
    (h : no_start_shell_keys init.watches = true) :
    no_start_shell_keys (ui_run init ops).watches = true := by
  induction ops generalizing init with
  | nil => exact h
  | cons op rest ih =>
    have hstep := ih (ui_step init op) (ui_step_watch_keys init op h)
    simpa [ui_run, List.foldl_cons] using hstep

/-- Witness for C4's amended theorem: toggling a watch on a live session
from a clean state keeps the Watches invariant. -/
theorem c4_watches_invariant_witness :
    no_start_shell_keys (⟨[(str "n1", str "s1", str "1")], [], []⟩ : UISt).watches = true ∧
    no_start_shell_keys
      ((ui_run ⟨[(str "n1", str "s1", str "1")], [], []⟩
        [UOp.watchToggle 0 5 0]).watches) = true :=
  ⟨rfl, c4_watches_invariant ⟨[(str "n1", str "s1", str "1")], [], []⟩
    [UOp.watchToggle 0 5 0] rfl⟩

set_option maxRecDepth 8000 in
/-- C4 (corrected), counterexample: after a refresh discovers node `gpu01`
with no live session, the item list holds the synthetic placeholder
`(gpu01, <Start Shell>)`; pressing `n` on it (the note handler has no
placeholder guard, unlike the watch handler) stores the key
`"gpu01:<Start Shell>"` in Notes, violating the claimed invariant. -/
theorem c4_counterexample :
    no_start_shell_keys
      ((ui_run ⟨[], [], []⟩
        [UOp.refresh ⟨[(str "gpu01", str "1:00")], fun _ => ([], none), fun _ _ => [], 0⟩,
         UOp.noteAdd 0 (str "hi")]).notes) = false ∧
    (ui_run ⟨[], [], []⟩
        [UOp.refresh ⟨[(str "gpu01", str "1:00")], fun _ => ([], none), fun _ _ => [], 0⟩,
         UOp.noteAdd 0 (str "hi")]).notes =
      [(mkKey (str "gpu01") startShell, str "hi")] := by
  decide

end Autotmux

